import Mathlib

/-!
# Verification of the kindling reconciliation engine and CLI helpers

Shallow embedding of the kindling repository (Go).  File contents and other
strings are modelled as `List Char`, so every operation is executable and the
embedded functions mirror the Go source (`cli/cmd/expose.go` and its
background-detached variant) line by line.  Components whose Go source is not
in the tree (the two controllers, the dependency provisioning table and the
build-agent sidecar) are modelled from the specification; each such definition
says so in its doc comment.
-/

/-- File contents / strings, modelled as lists of characters. -/
abbrev Str := List Char

/-- Model of Go `unicode.IsSpace` restricted to the code points that can occur
here: space (32), tab (9), newline (10), vertical tab (11), form feed (12),
carriage return (13), next line (0x85) and no-break space (0xA0). -/
def isWS (c : Char) : Bool :=
  c.toNat == 32 || c.toNat == 9 || c.toNat == 10 || c.toNat == 11 ||
  c.toNat == 12 || c.toNat == 13 || c.toNat == 0x85 || c.toNat == 0xA0

/-- Leading-whitespace trim (first half of Go `strings.TrimSpace`). -/
def ltrim (l : Str) : Str := l.dropWhile isWS

/-- Trailing-whitespace trim (second half of Go `strings.TrimSpace`). -/
def rtrim (l : Str) : Str := (l.reverse.dropWhile isWS).reverse

/-- Model of Go `strings.TrimSpace`. -/
def trimStr (l : Str) : Str := rtrim (ltrim l)

/-- Model of Go `strings.Split(s, "\n")`: the list of newline-separated
segments, keeping empty segments. -/
def splitOnNl : Str → List Str
  | [] => [[]]
  | c :: rest =>
      let s := splitOnNl rest
      if c = '\n' then [] :: s
      else (c :: s.headI) :: s.tail

/-! ## Decimal rendering and parsing (Go `fmt.Sprintf("%d", ·)` / `strconv.Atoi`) -/

/-- The character for one decimal digit. -/
def digitChar (d : Nat) : Char := Char.ofNat (48 + d)

/-- The digit encoded by a character (Go does `c - '0'`). -/
def charToDigit (c : Char) : Nat := c.toNat - 48

/-- Whether a character is a decimal digit (Go `'0' <= c && c <= '9'`). -/
def isDigitB (c : Char) : Bool := 48 ≤ c.toNat && c.toNat ≤ 57

/-- Decimal rendering of a natural number, most significant digit first,
as Go's `%d` produces it. -/
def natToChars (n : Nat) : Str :=
  if n = 0 then ['0'] else (Nat.digits 10 n).reverse.map digitChar

/-- Decimal rendering of an integer (Go's `%d`). -/
def intToChars (i : Int) : Str :=
  if i < 0 then '-' :: natToChars i.natAbs else natToChars i.toNat

/-- Parse an unsigned decimal numeral: `none` on the empty string or any
non-digit character. -/
def charsToNat (l : Str) : Option Nat :=
  if l.isEmpty || !(l.all isDigitB) then none
  else some (Nat.ofDigits 10 ((l.map charToDigit).reverse))

/-- Model of Go `strconv.Atoi`: optional sign, then digits.  Where Go reports
an error (and returns 0) the callers in `expose.go` discard the error, so the
model returns 0 there as well. -/
def atoi (l : Str) : Int :=
  match l with
  | [] => 0
  | c :: rest =>
      if c = '-' then -(Int.ofNat ((charsToNat rest).getD 0))
      else if c = '+' then Int.ofNat ((charsToNat rest).getD 0)
      else Int.ofNat ((charsToNat (c :: rest)).getD 0)


/-! ## Tunnel state persistence (`cli/cmd/expose.go` and its background-detached variant) -/

/-- Persisted tunnel state; `tunnelInfo` in the background-detached variant of
the expose command. -/
structure tunnelInfo where
  Provider : Str
  URL : Str
  PID : Int
deriving DecidableEq

/-- The comment line `saveTunnelInfo` writes first. -/
def tunnelFileHeader : Str := "# Generated by kindling expose — do not edit".data

/-- One iteration of the line loop in `readTunnelInfo`: trim the line, then
dispatch on the `provider:` / `url:` / `pid:` prefix (`strings.HasPrefix`
after `strings.TrimSpace`); the matching prefix is removed
(`strings.TrimPrefix`) and the remainder trimmed; `pid` goes through
`strconv.Atoi` with the error discarded. -/
def parseTunnelLine (info : tunnelInfo) (rawLine : Str) : tunnelInfo :=
  let line := trimStr rawLine
  if "provider:".data.isPrefixOf line then
    { info with Provider := trimStr (line.drop "provider:".data.length) }
  else if "url:".data.isPrefixOf line then
    { info with URL := trimStr (line.drop "url:".data.length) }
  else if "pid:".data.isPrefixOf line then
    { info with PID := atoi (trimStr (line.drop "pid:".data.length)) }
  else info

/-- `readTunnelInfo` from the background-detached variant, applied to the
contents of `.kindling/tunnel.yaml` (the `os.ReadFile` indirection is elided):
split on newlines and fold the line parser over a zero-valued `tunnelInfo`. -/
def readTunnelInfo (data : Str) : tunnelInfo :=
  (splitOnNl data).foldl parseTunnelLine ⟨[], [], 0⟩

/-- The file contents written by `saveTunnelInfo(publicURL, provider, pid)` in
the background-detached variant:
`"# Generated …\nprovider: %s\nurl: %s\npid: %d\ncreated: %s\n"`.
Each `\n` of the format string is written as an explicit cons. -/
def saveTunnelInfoContent (publicURL provider : Str) (pid : Int) (created : Str) : Str :=
  tunnelFileHeader ++ '\n' ::
    ("provider: ".data ++ provider ++ '\n' ::
      ("url: ".data ++ publicURL ++ '\n' ::
        ("pid: ".data ++ intToChars pid ++ '\n' ::
          ("created: ".data ++ created ++ ['\n']))))

/-- The file contents written by `saveTunnelInfo(publicURL, provider)` in
`cli/cmd/expose.go` (foreground variant): same format but with no `pid:`
line. -/
def saveTunnelInfoContentFg (publicURL provider : Str) (created : Str) : Str :=
  tunnelFileHeader ++ '\n' ::
    ("provider: ".data ++ provider ++ '\n' ::
      ("url: ".data ++ publicURL ++ '\n' ::
        ("created: ".data ++ created ++ ['\n'])))

/-- Externally visible stop/cleanup steps of the two tunnel supervisors. -/
inductive TunnelStopAction where
  | signalChildTERM
  | removeTunnelFile
  | deleteTunnelConfigMap
deriving DecidableEq

/-- Cleanup performed by `cleanupTunnel` in the background-detached variant:
remove `.kindling/tunnel.yaml`, then `kubectl delete configmap
kindling-tunnel`. -/
def cleanupTunnelActions : List TunnelStopAction :=
  [.removeTunnelFile, .deleteTunnelConfigMap]

/-- Cleanup performed by `waitForInterrupt` in `cli/cmd/expose.go` after
SIGINT/SIGTERM: signal the child, then remove only the local
`.kindling/tunnel.yaml`; no in-cluster object is touched. -/
def waitForInterruptActions : List TunnelStopAction :=
  [.signalChildTERM, .removeTunnelFile]

/-! ## `ensureTunnelGitignored` (identical in both expose variants) -/

/-- Whether one `.gitignore` line already ignores the state directory
(`strings.TrimSpace(line) == ".kindling/" || … == ".kindling"`). -/
def kindlingLine (l : Str) : Bool :=
  decide (trimStr l = ".kindling/".data) || decide (trimStr l = ".kindling".data)

/-- The scan loop of `ensureTunnelGitignored`: some line of the file already
ignores `.kindling`. -/
def kindlingIgnoredB (content : Str) : Bool :=
  (splitOnNl content).any kindlingLine

/-- `ensureTunnelGitignored`, on the contents of `.gitignore` (a missing file
reads as the empty content; the early return on other read errors leaves the
file unchanged and is elided): if some line already ignores `.kindling`,
return unchanged; otherwise append a newline when the content is nonempty and
does not end with one, then append `".kindling/\n"`. -/
def ensureTunnelGitignored (content : Str) : Str :=
  if kindlingIgnoredB content then content
  else
    (if !content.isEmpty && !(content.getLast? = some '\n') then content ++ ['\n'] else content)
      ++ ".kindling/".data ++ ['\n']

/-! ## Reconcile upsert loop

Modelled from the spec: the controllers' Go source (`internal/controller/`) is
not in the tree; §4.1/§4.3 describe every ensure-step as an upsert keyed by a
deterministic name, diffing desired against observed state and writing only on
difference. -/

/-- Observed cluster state: sub-resources keyed by their deterministic name. -/
def lookupKey {V : Type} : List (String × V) → String → Option V
  | [], _ => none
  | (k, v) :: t, n => if k = n then some v else lookupKey t n

/-- Replace the value stored under an existing key. -/
def setKey {V : Type} : List (String × V) → String → V → List (String × V)
  | [], _, _ => []
  | (a, b) :: t, k, v => if a = k then (k, v) :: setKey t k v else (a, b) :: setKey t k v

/-- Modelled from the spec: one ensure-step ("every ensure-step is an upsert
keyed by a deterministic name"): create when absent, overwrite when different,
do nothing when already equal.  The boolean reports whether a write happened
(the no-op diff). -/
def upsert {V : Type} [DecidableEq V] (st : List (String × V)) (k : String) (v : V) :
    List (String × V) × Bool :=
  match lookupKey st k with
  | some w => if w = v then (st, false) else (setKey st k v, true)
  | none => ((k, v) :: st, true)

/-- Modelled from the spec: one reconcile pass applies the ensure-step to every
desired sub-resource in order, counting writes. -/
def reconcilePass {V : Type} [DecidableEq V] :
    List (String × V) → List (String × V) → List (String × V) × Nat
  | [], st => (st, 0)
  | (k, v) :: rest, st =>
      let p := upsert st k v
      let q := reconcilePass rest p.1
      (q.1, (if p.2 then 1 else 0) + q.2)

/-! ## Dependency provisioning table

Modelled from the spec: the table's Go source is not in the tree; the README's
"Supported dependency types" table (and §4.2 of the spec) documents it. -/

/-- The supported dependency types. -/
inductive DependencyType where
  | postgres | redis | mysql | mongodb | rabbitmq | minio
deriving DecidableEq

/-- One row of the provisioning table: default image, default port, injected
environment-variable name, and any additionally injected variable names. -/
structure DependencyDefaults where
  image : String
  port : Nat
  envVarName : String
  extraEnvVarNames : List String
deriving DecidableEq

/-- Modelled from the spec: the dependency provisioning table (README
"Supported dependency types"). -/
def dependencyDefaults : DependencyType → DependencyDefaults
  | .postgres => ⟨"postgres:16", 5432, "DATABASE_URL", []⟩
  | .redis => ⟨"redis:latest", 6379, "REDIS_URL", []⟩
  | .mysql => ⟨"mysql:latest", 3306, "DATABASE_URL", []⟩
  | .mongodb => ⟨"mongo:latest", 27017, "MONGO_URL", []⟩
  | .rabbitmq => ⟨"rabbitmq:3-management", 5672, "AMQP_URL", []⟩
  | .minio => ⟨"minio/minio:latest", 9000, "S3_ENDPOINT", ["S3_ACCESS_KEY", "S3_SECRET_KEY"]⟩

/-- The `dependencies[].type` string of each supported type. -/
def typeName : DependencyType → String
  | .postgres => "postgres"
  | .redis => "redis"
  | .mysql => "mysql"
  | .mongodb => "mongodb"
  | .rabbitmq => "rabbitmq"
  | .minio => "minio"

/-- Modelled from the spec: recognising a declaration's `type` string; an
unsupported string is a validation error, not a crash. -/
def parseDependencyType (s : String) : Option DependencyType :=
  if s = "postgres" then some .postgres
  else if s = "redis" then some .redis
  else if s = "mysql" then some .mysql
  else if s = "mongodb" then some .mongodb
  else if s = "rabbitmq" then some .rabbitmq
  else if s = "minio" then some .minio
  else none

/-- A dependency declaration: the type string plus the per-declaration
overrides the claims are about (`image`, `port`, `envVarName`); fields not
referenced by any claim (`version`, `env`, `storageSize`, `resources`) are
omitted. -/
structure DependencyDecl where
  type : String
  image : Option String
  port : Option Nat
  envVarName : Option String
deriving DecidableEq

/-- A declaration resolved against the provisioning table. -/
structure ResolvedDependency where
  image : String
  port : Nat
  envVarName : String
deriving DecidableEq

/-- Modelled from the spec: resolve one declaration against the table ("any
field may be overridden per-declaration"); an unsupported type yields
`none`. -/
def resolveDependency (d : DependencyDecl) : Option ResolvedDependency :=
  (parseDependencyType d.type).map fun t =>
    let defs := dependencyDefaults t
    ⟨d.image.getD defs.image, d.port.getD defs.port, d.envVarName.getD defs.envVarName⟩

/-! ## Dependency credential secrets

Modelled from the spec: §4.3 step 2 — secrets are created once with a
generated credential and on later reconciles read back, never re-derived. -/

/-- Modelled from the spec: ensure one credential Secret exists.  When the
Secret is already present its stored credential is read back unchanged;
only when absent is the freshly generated credential stored. -/
def ensureDepSecret (generated : String) (secrets : List (String × String))
    (name : String) : List (String × String) :=
  match lookupKey secrets name with
  | some _ => secrets
  | none => (name, generated) :: secrets

/-- The environment descriptor fields the credential-stability claim is about:
the stable owner name, the dependency list, and unrelated mutable fields. -/
structure EnvDescriptor where
  name : String
  image : String
  replicas : Nat
  dependencies : List DependencyDecl
deriving DecidableEq

/-- The deterministic Secret name of a dependency: `<owner>-<dep-type>`. -/
def depSecretName (owner : String) (d : DependencyDecl) : String :=
  owner ++ "-" ++ d.type

/-- Modelled from the spec: the secret-ensuring part of one Environment
Controller reconcile, walking the dependency list in order.  `gen` supplies
the freshly generated credential a reconcile would use if (and only if) the
Secret does not exist yet. -/
def reconcileDepSecretsLoop (gen : String → String) (owner : String) :
    List DependencyDecl → List (String × String) → List (String × String)
  | [], secrets => secrets
  | d :: rest, secrets =>
      reconcileDepSecretsLoop gen owner rest
        (ensureDepSecret (gen (depSecretName owner d)) secrets (depSecretName owner d))

/-- Modelled from the spec: reconcile all dependency Secrets of a descriptor. -/
def reconcileDepSecrets (gen : String → String) (d : EnvDescriptor)
    (secrets : List (String × String)) : List (String × String) :=
  reconcileDepSecretsLoop gen d.name d.dependencies secrets

/-! ## Application container environment

Modelled from the spec: §4.3 step 3 — dependency-injected variables plus the
descriptor's own `env` list, explicit entries winning on name collision. -/

/-- A named environment variable. -/
structure EnvVar where
  name : String
  value : String
deriving DecidableEq

/-- First binding of a name in an environment list. -/
def lookupEnv : List EnvVar → String → Option String
  | [], _ => none
  | e :: t, n => if e.name = n then some e.value else lookupEnv t n

/-- Whether a name is bound in an environment list. -/
def hasEnv (l : List EnvVar) (n : String) : Bool :=
  l.any fun e => decide (e.name = n)

/-- Modelled from the spec: the application container's environment — every
dependency-injected variable not shadowed by an explicit `env` entry, followed
by the descriptor's own `env` list. -/
def aggregateEnv (depVars explicitVars : List EnvVar) : List EnvVar :=
  (depVars.filter fun d => !(hasEnv explicitVars d.name)) ++ explicitVars

/-! ## Per-entry dependency provisioning

Modelled from the spec: §4.2/§8 — an unsupported type creates nothing for that
entry and surfaces a validation condition; other entries are unaffected. -/

/-- One provisioned sub-resource: its deterministic name and its role. -/
structure ProvRes where
  name : String
  role : String
deriving DecidableEq

/-- Modelled from the spec: provision one dependency entry.  A supported type
yields its Deployment, Service and credential Secret under the stable name
`<owner>-<dep-type>` and no error; an unsupported type yields no resources and
one validation message. -/
def provisionEntry (owner : String) (d : DependencyDecl) : List ProvRes × List String :=
  match parseDependencyType d.type with
  | some _ =>
      ([⟨depSecretName owner d, "Deployment"⟩, ⟨depSecretName owner d, "Service"⟩,
        ⟨depSecretName owner d, "Secret"⟩], [])
  | none => ([], ["unsupported dependency type: " ++ d.type])

/-- Modelled from the spec: provision every dependency entry of a descriptor,
collecting resources and validation messages independently per entry. -/
def provisionDependencies (owner : String) : List DependencyDecl → List ProvRes × List String
  | [] => ([], [])
  | d :: rest =>
      let e := provisionEntry owner d
      let r := provisionDependencies owner rest
      (e.1 ++ r.1, e.2 ++ r.2)

/-- Modelled from the spec: the `Invalid` status condition is set exactly when
some entry produced a validation message. -/
def invalidCondition (owner : String) (decls : List DependencyDecl) : Bool :=
  !(provisionDependencies owner decls).2.isEmpty

/-! ## Build/deploy signal protocol

Modelled from the spec: §4.5 — the build-agent sidecar's script is not in the
tree; the README's trigger table and the spec describe it.  The shared
`/builds` volume is a name-keyed file store. -/

/-- The contents stored under a file name, if the file exists. -/
def getFile (fs : List (String × Str)) (name : String) : Option Str :=
  lookupKey fs name

/-- Delete every entry of a file name. -/
def removeFile (fs : List (String × Str)) (name : String) : List (String × Str) :=
  fs.filter fun p => !(decide (p.1 = name))

/-- Write a file, replacing any previous contents. -/
def setFile (fs : List (String × Str)) (name : String) (v : Str) : List (String × Str) :=
  (name, v) :: removeFile fs name

/-- How many entries carry a file name. -/
def countFile (fs : List (String × Str)) (name : String) : Nat :=
  fs.countP fun p => decide (p.1 = name)

/-- The shared volume plus a count of builder jobs launched. -/
structure BuildAgentState where
  files : List (String × Str)
  runs : Nat
deriving DecidableEq

/-- Modelled from the spec: one polling cycle of the build-agent sidecar for
build job `name` whose underlying builder exits with `exitCode`.  If
`<name>.request` exists the sidecar deletes the trigger *before* starting work
(at-most-once), launches the builder against `<name>.tar.gz`/`<name>.dest`,
and writes `<name>.done` containing the numeric exit status; otherwise the
cycle does nothing. -/
def buildAgentPoll (exitCode : Nat) (name : String) (s : BuildAgentState) : BuildAgentState :=
  if (getFile s.files (name ++ ".request")).isSome then
    let afterTrigger := removeFile s.files (name ++ ".request")
    { files := setFile afterTrigger (name ++ ".done") (natToChars exitCode),
      runs := s.runs + 1 }
  else s

/-! ## Runner pool credential lifecycle

Modelled from the spec: §4.4 — the Runner Pool Controller's Go source is not
in the tree.  API availability over successive attempts is an oracle list of
booleans. -/

/-- Modelled from the spec: the registration loop at pod startup.  Each
unreachable attempt crashes the pod and retries; the first reachable attempt
performs the single registration exchange.  Returns how many registration
exchanges completed. -/
def registerLoop : List Bool → Nat
  | [] => 0
  | a :: rest => if a then 1 else registerLoop rest

/-- Modelled from the spec: the finalizer's de-registration loop, bounded by
`timeout` attempts.  A reachable attempt performs the single de-registration
exchange and deletion proceeds; when the timeout elapses (or the availability
trace ends) deletion proceeds anyway.  Returns (completed de-registration
exchanges, deletion allowed to proceed). -/
def deregLoop : Nat → List Bool → Nat × Bool
  | 0, _ => (0, true)
  | _ + 1, [] => (0, true)
  | t + 1, a :: rest => if a then (1, true) else deregLoop t rest

/-! ## Library lemmas about the embedded operations -/

theorem splitOnNl_ne_nil (l : Str) : splitOnNl l ≠ [] := by
  cases l with
  | nil => simp [splitOnNl]
  | cons c rest =>
      simp only [splitOnNl]
      split <;> simp

/-- Splitting distributes over a newline that joins two pieces. -/
theorem splitOnNl_append (x r : Str) :
    splitOnNl (x ++ '\n' :: r) = splitOnNl x ++ splitOnNl r := by
  induction x with
  | nil => simp [splitOnNl]
  | cons c t ih =>
      by_cases hc : c = '\n'
      · subst hc
        simp [splitOnNl, ih]
      · have hne := splitOnNl_ne_nil t
        obtain ⟨s0, srest, hs⟩ := List.exists_cons_of_ne_nil hne
        simp [splitOnNl, hc, ih, hs]

/-- A newline-free string is a single segment. -/
theorem splitOnNl_no_nl (x : Str) (h : '\n' ∉ x) : splitOnNl x = [x] := by
  induction x with
  | nil => rfl
  | cons c t ih =>
      have hc : c ≠ '\n' := fun hc => h (hc ▸ List.mem_cons_self c t)
      have ht : '\n' ∉ t := fun hm => h (List.mem_cons_of_mem c hm)
      simp [splitOnNl, hc, ih ht]

/-- Splitting just before a final newline. -/
theorem splitOnNl_line (x r : Str) (h : '\n' ∉ x) :
    splitOnNl (x ++ '\n' :: r) = x :: splitOnNl r := by
  rw [splitOnNl_append, splitOnNl_no_nl x h]
  rfl

theorem dropWhile_eq_self_of_head {p : Char → Bool} :
    ∀ l : Str, (∀ c ∈ l, p c = false) → l.dropWhile p = l := by
  intro l h
  cases l with
  | nil => rfl
  | cons c t => simp [List.dropWhile_cons, h c (List.mem_cons_self c t)]

theorem ltrim_eq_self (l : Str) (h : ∀ c ∈ l, isWS c = false) : ltrim l = l :=
  dropWhile_eq_self_of_head l h

theorem rtrim_eq_self (l : Str) (h : ∀ c ∈ l, isWS c = false) : rtrim l = l := by
  unfold rtrim
  rw [dropWhile_eq_self_of_head l.reverse (fun c hc => h c (List.mem_reverse.mp hc))]
  exact l.reverse_reverse

theorem trimStr_eq_self (l : Str) (h : ∀ c ∈ l, isWS c = false) : trimStr l = l := by
  unfold trimStr
  rw [ltrim_eq_self l h, rtrim_eq_self l h]

theorem ltrim_cons_of_not_ws {c : Char} (l : Str) (h : isWS c = false) :
    ltrim (c :: l) = c :: l := by
  simp [ltrim, List.dropWhile_cons, h]

/-- If `p` is already right-trimmed and nonempty, appending it to anything
yields a right-trimmed result. -/
theorem rtrim_append_right (x p : Str) (hne : p ≠ []) (hp : rtrim p = p) :
    rtrim (x ++ p) = x ++ p := by
  have hrev : p.reverse.dropWhile isWS = p.reverse := by
    have := congrArg List.reverse hp
    simpa [rtrim] using this
  obtain ⟨c, t, hct⟩ :=
    List.exists_cons_of_ne_nil (fun h0 : p.reverse = [] => hne (by simpa using congrArg List.reverse h0))
  have hc : isWS c = false := by
    rw [hct] at hrev
    have := (List.dropWhile_eq_self_iff).mp hrev (by simp)
    simpa using this
  unfold rtrim
  rw [List.reverse_append, hct, List.cons_append, List.dropWhile_cons, hc]
  simp only [Bool.false_eq_true, if_false]
  rw [List.reverse_cons, List.reverse_append]
  have : t.reverse ++ [c] = p := by
    have := congrArg List.reverse hct
    simpa using this.symm
  simp [List.append_assoc, this]

theorem digitChar_toNat {d : Nat} (hd : d < 10) : (digitChar d).toNat = 48 + d := by
  interval_cases d <;> decide

theorem isDigitB_digitChar {d : Nat} (hd : d < 10) : isDigitB (digitChar d) = true := by
  interval_cases d <;> decide

theorem charToDigit_digitChar {d : Nat} (hd : d < 10) : charToDigit (digitChar d) = d := by
  interval_cases d <;> decide

theorem mem_natToChars_isDigit {n : Nat} {c : Char} (hc : c ∈ natToChars n) :
    isDigitB c = true := by
  unfold natToChars at hc
  split at hc
  · simp at hc
    subst hc
    decide
  · simp only [List.mem_map, List.mem_reverse] at hc
    obtain ⟨d, hd, rfl⟩ := hc
    exact isDigitB_digitChar (Nat.digits_lt_base (by norm_num) hd)

theorem natToChars_ne_nil (n : Nat) : natToChars n ≠ [] := by
  unfold natToChars
  split
  · simp
  · have : Nat.digits 10 n ≠ [] := Nat.digits_ne_nil_iff_ne_zero.mpr (by assumption)
    simp [this]

theorem isDigitB_not_ws {c : Char} (h : isDigitB c = true) : isWS c = false := by
  simp only [isDigitB, Bool.and_eq_true, decide_eq_true_eq] at h
  simp only [isWS, Bool.or_eq_false_iff, beq_eq_false_iff_ne, ne_eq]
  omega

theorem isDigitB_ne_nl {c : Char} (h : isDigitB c = true) : c ≠ '\n' := by
  intro hc
  subst hc
  simp [isDigitB] at h

theorem charsToNat_natToChars (n : Nat) : charsToNat (natToChars n) = some n := by
  by_cases hn : n = 0
  · subst hn; decide
  · have hne : (natToChars n).isEmpty = false := by
      cases h : natToChars n with
      | nil => exact absurd h (natToChars_ne_nil n)
      | cons c t => rfl
    have hall : (natToChars n).all isDigitB = true :=
      List.all_eq_true.mpr fun c hc => mem_natToChars_isDigit hc
    have hofd : Nat.ofDigits 10 (((natToChars n).map charToDigit).reverse) = n := by
      unfold natToChars
      rw [if_neg hn]
      simp only [List.map_reverse, List.reverse_reverse, List.map_map]
      have hmap : (Nat.digits 10 n).map (charToDigit ∘ digitChar) = (Nat.digits 10 n).map id :=
        List.map_congr_left fun d hd' =>
          charToDigit_digitChar (Nat.digits_lt_base (by norm_num) hd')
      rw [hmap, List.map_id, Nat.ofDigits_digits]
    unfold charsToNat
    rw [hne, hall, hofd]
    simp

theorem natToChars_head_not_sign (n : Nat) :
    ∀ c t, natToChars n = c :: t → c ≠ '-' ∧ c ≠ '+' := by
  intro c t h
  have hc : isDigitB c = true :=
    mem_natToChars_isDigit (h ▸ List.mem_cons_self c t)
  constructor
  · rintro rfl; simp [isDigitB] at hc
  · rintro rfl; simp [isDigitB] at hc

theorem atoi_natToChars (n : Nat) : atoi (natToChars n) = Int.ofNat n := by
  obtain ⟨c, t, hct⟩ := List.exists_cons_of_ne_nil (natToChars_ne_nil n)
  obtain ⟨hminus, hplus⟩ := natToChars_head_not_sign n c t hct
  rw [hct]
  simp only [atoi, if_neg hminus, if_neg hplus]
  rw [← hct, charsToNat_natToChars]
  rfl

/-- Printing an integer with `%d` and reading it back with `strconv.Atoi`
returns the integer. -/
theorem atoi_intToChars (i : Int) : atoi (intToChars i) = i := by
  unfold intToChars
  by_cases hi : i < 0
  · rw [if_pos hi]
    simp only [atoi, if_pos rfl]
    rw [charsToNat_natToChars]
    simp only [Option.getD_some]
    rw [Int.ofNat_eq_natCast, Int.natCast_natAbs, abs_of_nonpos (le_of_lt hi), neg_neg]
    simp
  · rw [if_neg hi, atoi_natToChars]
    rw [Int.ofNat_eq_natCast, Int.toNat_of_nonneg (not_lt.mp hi)]

theorem intToChars_not_ws (i : Int) : ∀ c ∈ intToChars i, isWS c = false := by
  intro c hc
  unfold intToChars at hc
  split at hc
  · rcases List.mem_cons.mp hc with rfl | hmem
    · decide
    · exact isDigitB_not_ws (mem_natToChars_isDigit hmem)
  · exact isDigitB_not_ws (mem_natToChars_isDigit hc)

theorem nl_not_mem_intToChars (i : Int) : '\n' ∉ intToChars i := by
  intro h
  have := intToChars_not_ws i '\n' h
  simp [isWS] at this

theorem intToChars_ne_nil (i : Int) : intToChars i ≠ [] := by
  unfold intToChars
  split
  · simp
  · exact natToChars_ne_nil _

theorem not_mem_append_chars {c : Char} {a b : Str} (ha : c ∉ a) (hb : c ∉ b) :
    c ∉ a ++ b := fun h => (List.mem_append.mp h).elim (fun h' => ha h') (fun h' => hb h')

theorem isPrefixOf_append_self : ∀ (l m : Str), l.isPrefixOf (l ++ m) = true
  | [], m => by cases m <;> rfl
  | c :: t, m => by simp [List.isPrefixOf, isPrefixOf_append_self t m]

theorem isPrefixOf_false_of_head_ne {a b : Char} (as bs : Str) (h : a ≠ b) :
    (a :: as).isPrefixOf (b :: bs) = false := by
  simp [List.isPrefixOf, h]

theorem dropWhile_concat_shape (p : Char → Bool) :
    ∀ (l : Str) (c : Char),
      (l ++ [c]).dropWhile p = [] ∨ ∃ s, (l ++ [c]).dropWhile p = s ++ [c] := by
  intro l
  induction l with
  | nil =>
      intro c
      by_cases hc : p c = true
      · left; simp [List.dropWhile_cons, hc]
      · right
        refine ⟨[], ?_⟩
        simp only [Bool.not_eq_true] at hc
        simp [List.dropWhile_cons, hc]
  | cons a t ih =>
      intro c
      by_cases ha : p a = true
      · rw [List.cons_append, List.dropWhile_cons, if_pos ha]
        exact ih c
      · right
        refine ⟨a :: t, ?_⟩
        simp only [Bool.not_eq_true] at ha
        simp [List.dropWhile_cons, ha]

theorem rtrim_cons_shape (c : Char) (t : Str) :
    rtrim (c :: t) = [] ∨ ∃ t', rtrim (c :: t) = c :: t' := by
  unfold rtrim
  rw [show (c :: t).reverse = t.reverse ++ [c] from by simp]
  rcases dropWhile_concat_shape isWS t.reverse c with h | ⟨s, h⟩
  · left; rw [h]; rfl
  · right
    exact ⟨s.reverse, by rw [h]; simp⟩

theorem trimStr_cons_shape {c : Char} (t : Str) (hc : isWS c = false) :
    trimStr (c :: t) = [] ∨ ∃ t', trimStr (c :: t) = c :: t' := by
  unfold trimStr
  rw [ltrim_cons_of_not_ws t hc]
  exact rtrim_cons_shape c t

theorem parseTunnelLine_skip (i : tunnelInfo) (l : Str)
    (h1 : "provider:".data.isPrefixOf (trimStr l) = false)
    (h2 : "url:".data.isPrefixOf (trimStr l) = false)
    (h3 : "pid:".data.isPrefixOf (trimStr l) = false) :
    parseTunnelLine i l = i := by
  simp [parseTunnelLine, h1, h2, h3]

theorem parseTunnelLine_skip_head (i : tunnelInfo) (c : Char) (t : Str)
    (hc : isWS c = false) (hp : c ≠ 'p') (hu : c ≠ 'u') :
    parseTunnelLine i (c :: t) = i := by
  rcases trimStr_cons_shape t hc with h | ⟨t', h⟩
  · exact parseTunnelLine_skip i (c :: t) (by rw [h]; rfl) (by rw [h]; rfl) (by rw [h]; rfl)
  · refine parseTunnelLine_skip i (c :: t) ?_ ?_ ?_
    · rw [h, show "provider:".data = 'p' :: "rovider:".data from rfl]
      exact isPrefixOf_false_of_head_ne _ _ (Ne.symm hp)
    · rw [h, show "url:".data = 'u' :: "rl:".data from rfl]
      exact isPrefixOf_false_of_head_ne _ _ (Ne.symm hu)
    · rw [h, show "pid:".data = 'p' :: "id:".data from rfl]
      exact isPrefixOf_false_of_head_ne _ _ (Ne.symm hp)

theorem rtrim_append_space (l : Str) : rtrim (l ++ [' ']) = rtrim l := by
  unfold rtrim
  rw [List.reverse_append]
  simp only [List.reverse_cons, List.reverse_nil, List.nil_append, List.singleton_append]
  rw [List.dropWhile_cons, if_pos (by decide : isWS ' ' = true)]

theorem isPrefixOf_refl (l : Str) : l.isPrefixOf l = true := by
  have h := isPrefixOf_append_self l []
  rwa [List.append_nil] at h

/-- Anatomy of a generated `label: value` line under `TrimSpace`: the label
stays a prefix, dropping the label and trimming recovers the value, and the
trimmed line is the label alone (empty value) or the whole line. -/
theorem label_line_parses (lbl p : Str) (c0 : Char) (t0 : Str) (hlbl : lbl = c0 :: t0)
    (hws : ∀ c ∈ lbl, isWS c = false) (hlp : ltrim p = p) (hrp : rtrim p = p) :
    lbl.isPrefixOf (trimStr ((lbl ++ [' ']) ++ p)) = true ∧
    trimStr ((trimStr ((lbl ++ [' ']) ++ p)).drop lbl.length) = p ∧
    (trimStr ((lbl ++ [' ']) ++ p) = lbl ∨ trimStr ((lbl ++ [' ']) ++ p) = (lbl ++ [' ']) ++ p) := by
  have hc0 : isWS c0 = false := hws c0 (hlbl ▸ List.mem_cons_self c0 t0)
  by_cases hp0 : p = []
  · subst hp0
    have htrim : trimStr ((lbl ++ [' ']) ++ []) = lbl := by
      rw [List.append_nil]
      unfold trimStr
      rw [hlbl, List.cons_append, ltrim_cons_of_not_ws _ hc0, ← List.cons_append, ← hlbl,
        rtrim_append_space, rtrim_eq_self lbl hws]
    refine ⟨?_, ?_, Or.inl htrim⟩
    · rw [htrim]; exact isPrefixOf_refl lbl
    · rw [htrim, List.drop_length]; rfl
  · have htrim : trimStr ((lbl ++ [' ']) ++ p) = (lbl ++ [' ']) ++ p := by
      unfold trimStr
      rw [hlbl, List.cons_append, List.cons_append, ltrim_cons_of_not_ws _ hc0,
        ← List.cons_append, ← List.cons_append, ← hlbl, rtrim_append_right _ p hp0 hrp]
    refine ⟨?_, ?_, Or.inr htrim⟩
    · rw [htrim, List.append_assoc]
      exact isPrefixOf_append_self lbl ([' '] ++ p)
    · rw [htrim, List.append_assoc, List.drop_left]
      show trimStr (' ' :: p) = p
      unfold trimStr ltrim
      rw [List.dropWhile_cons, if_pos (by decide : isWS ' ' = true)]
      rw [show List.dropWhile isWS p = p from hlp]
      exact hrp

theorem parseTunnelLine_provider_branch (i : tunnelInfo) (l v : Str)
    (h1 : "provider:".data.isPrefixOf (trimStr l) = true)
    (hv : trimStr ((trimStr l).drop "provider:".data.length) = v) :
    parseTunnelLine i l = { i with Provider := v } := by
  have hv' : trimStr ((trimStr l).drop 9) = v := by simpa using hv
  simp [parseTunnelLine, h1, hv']

theorem parseTunnelLine_url_branch (i : tunnelInfo) (l v : Str)
    (h0 : "provider:".data.isPrefixOf (trimStr l) = false)
    (h1 : "url:".data.isPrefixOf (trimStr l) = true)
    (hv : trimStr ((trimStr l).drop "url:".data.length) = v) :
    parseTunnelLine i l = { i with URL := v } := by
  have hv' : trimStr ((trimStr l).drop 4) = v := by simpa using hv
  simp [parseTunnelLine, h0, h1, hv']

theorem parseTunnelLine_pid_branch (i : tunnelInfo) (l v : Str)
    (h0 : "provider:".data.isPrefixOf (trimStr l) = false)
    (h1 : "url:".data.isPrefixOf (trimStr l) = false)
    (h2 : "pid:".data.isPrefixOf (trimStr l) = true)
    (hv : trimStr ((trimStr l).drop "pid:".data.length) = v) :
    parseTunnelLine i l = { i with PID := atoi v } := by
  have hv' : trimStr ((trimStr l).drop 4) = v := by simpa using hv
  simp [parseTunnelLine, h0, h1, h2, hv']

theorem splitOnNl_saveTunnelInfoContent (publicURL provider : Str) (pid : Int) (created : Str)
    (hpNl : '\n' ∉ provider) (huNl : '\n' ∉ publicURL) (hcNl : '\n' ∉ created) :
    splitOnNl (saveTunnelInfoContent publicURL provider pid created) =
      [tunnelFileHeader, "provider: ".data ++ provider, "url: ".data ++ publicURL,
        "pid: ".data ++ intToChars pid, "created: ".data ++ created, []] := by
  unfold saveTunnelInfoContent
  rw [splitOnNl_line _ _ (by decide)]
  rw [splitOnNl_line _ _ (not_mem_append_chars (by decide) hpNl)]
  rw [splitOnNl_line _ _ (not_mem_append_chars (by decide) huNl)]
  rw [splitOnNl_line _ _ (not_mem_append_chars (by decide) (nl_not_mem_intToChars pid))]
  rw [splitOnNl_line _ _ (not_mem_append_chars (by decide) hcNl)]
  rfl

/-- Parsing the file written by the background-detached `saveTunnelInfo`
recovers provider, URL and PID. -/
theorem readTunnelInfo_save_aux
    (publicURL provider : Str) (pid : Int) (created : Str)
    (hpNl : '\n' ∉ provider) (hpL : ltrim provider = provider) (hpR : rtrim provider = provider)
    (huNl : '\n' ∉ publicURL) (huL : ltrim publicURL = publicURL)
    (huR : rtrim publicURL = publicURL) (hcNl : '\n' ∉ created) :
    readTunnelInfo (saveTunnelInfoContent publicURL provider pid created) =
      ⟨provider, publicURL, pid⟩ := by
  rw [readTunnelInfo,
    splitOnNl_saveTunnelInfoContent publicURL provider pid created hpNl huNl hcNl]
  simp only [List.foldl_cons, List.foldl_nil]
  obtain ⟨hpre1, hval1, hshape1⟩ :=
    label_line_parses "provider:".data provider 'p' "rovider:".data rfl (by decide) hpL hpR
  obtain ⟨hpre2, hval2, hshape2⟩ :=
    label_line_parses "url:".data publicURL 'u' "rl:".data rfl (by decide) huL huR
  obtain ⟨hpre3, hval3, hshape3⟩ :=
    label_line_parses "pid:".data (intToChars pid) 'p' "id:".data rfl (by decide)
      (ltrim_eq_self _ (intToChars_not_ws pid)) (rtrim_eq_self _ (intToChars_not_ws pid))
  have hnotp2 :
      "provider:".data.isPrefixOf (trimStr (("url:".data ++ [' ']) ++ publicURL)) = false := by
    rcases hshape2 with h | h
    · rw [h]; decide
    · rw [h, show ("url:".data ++ [' ']) ++ publicURL = 'u' :: ("rl: ".data ++ publicURL)
        from rfl]
      exact isPrefixOf_false_of_head_ne _ _ (by decide)
  have hnotp3 :
      "provider:".data.isPrefixOf (trimStr (("pid:".data ++ [' ']) ++ intToChars pid)) = false := by
    rcases hshape3 with h | h
    · rw [h]; decide
    · rw [h, show ("pid:".data ++ [' ']) ++ intToChars pid =
        'p' :: 'i' :: ("d: ".data ++ intToChars pid) from rfl,
        show "provider:".data = 'p' :: 'r' :: "ovider:".data from rfl]
      simp [List.isPrefixOf]
  have hnotu3 :
      "url:".data.isPrefixOf (trimStr (("pid:".data ++ [' ']) ++ intToChars pid)) = false := by
    rcases hshape3 with h | h
    · rw [h]; decide
    · rw [h, show ("pid:".data ++ [' ']) ++ intToChars pid =
        'p' :: ("id: ".data ++ intToChars pid) from rfl]
      exact isPrefixOf_false_of_head_ne _ _ (by decide)
  have h1 : parseTunnelLine ⟨[], [], 0⟩ tunnelFileHeader = ⟨[], [], 0⟩ :=
    parseTunnelLine_skip_head _ '#' " Generated by kindling expose — do not edit".data
      (by decide) (by decide) (by decide)
  have h2 : parseTunnelLine ⟨[], [], 0⟩ ("provider: ".data ++ provider) =
      ⟨provider, [], 0⟩ :=
    parseTunnelLine_provider_branch _ _ _ hpre1 hval1
  have h3 : parseTunnelLine ⟨provider, [], 0⟩ ("url: ".data ++ publicURL) =
      ⟨provider, publicURL, 0⟩ :=
    parseTunnelLine_url_branch _ _ _ hnotp2 hpre2 hval2
  have h4 : parseTunnelLine ⟨provider, publicURL, 0⟩ ("pid: ".data ++ intToChars pid) =
      ⟨provider, publicURL, pid⟩ := by
    have := parseTunnelLine_pid_branch ⟨provider, publicURL, 0⟩ _ _ hnotp3 hnotu3 hpre3 hval3
    rwa [atoi_intToChars] at this
  have h5 : parseTunnelLine ⟨provider, publicURL, pid⟩ ("created: ".data ++ created) =
      ⟨provider, publicURL, pid⟩ :=
    parseTunnelLine_skip_head _ 'c' ("reated: ".data ++ created)
      (by decide) (by decide) (by decide)
  have h6 : parseTunnelLine ⟨provider, publicURL, pid⟩ [] = ⟨provider, publicURL, pid⟩ :=
    parseTunnelLine_skip _ [] (by decide) (by decide) (by decide)
  rw [h1, h2, h3, h4, h5, h6]

/-- C9: Tunnel-state persistence round-trips: for every provider string,
public URL, and PID where the provider and URL (and the timestamp) contain no
newline and no leading or trailing whitespace, `readTunnelInfo` applied
immediately after `saveTunnelInfo(publicURL, provider, pid)` returns a
`tunnelInfo` whose `Provider`, `URL` and `PID` fields equal the saved
values. -/
theorem readTunnelInfo_saveTunnelInfo
    (publicURL provider : Str) (pid : Int) (created : Str)
    (hpNl : '\n' ∉ provider) (hpL : ltrim provider = provider) (hpR : rtrim provider = provider)
    (huNl : '\n' ∉ publicURL) (huL : ltrim publicURL = publicURL)
    (huR : rtrim publicURL = publicURL) (hcNl : '\n' ∉ created) :
    readTunnelInfo (saveTunnelInfoContent publicURL provider pid created) =
      ⟨provider, publicURL, pid⟩ :=
  readTunnelInfo_save_aux publicURL provider pid created hpNl hpL hpR huNl huL huR hcNl

/-- Witness for C9 at a concrete provider, URL, PID and timestamp. -/
theorem readTunnelInfo_saveTunnelInfo_witness :
    readTunnelInfo (saveTunnelInfoContent "https://x.trycloudflare.com".data
        "cloudflared".data 4242 "2024-01-01T00:00:00Z".data) =
      ⟨"cloudflared".data, "https://x.trycloudflare.com".data, 4242⟩ :=
  readTunnelInfo_saveTunnelInfo "https://x.trycloudflare.com".data "cloudflared".data 4242
    "2024-01-01T00:00:00Z".data (by decide) (by decide) (by decide) (by decide) (by decide)
    (by decide) (by decide)

theorem kindlingIgnoredB_append (x r : Str) :
    kindlingIgnoredB (x ++ '\n' :: r) = (kindlingIgnoredB x || kindlingIgnoredB r) := by
  unfold kindlingIgnoredB
  rw [splitOnNl_append, List.any_append]

theorem ensureTunnelGitignored_of_ignored (c : Str) (h : kindlingIgnoredB c = true) :
    ensureTunnelGitignored c = c := by
  unfold ensureTunnelGitignored
  rw [if_pos h]

theorem ensureTunnelGitignored_padding (c : Str) (h : ¬ kindlingIgnoredB c = true) :
    ensureTunnelGitignored c =
      (if !c.isEmpty && !decide (c.getLast? = some '\n') then c ++ ['\n'] else c)
        ++ ".kindling/".data ++ ['\n'] := by
  unfold ensureTunnelGitignored
  rw [if_neg h]

theorem kindlingIgnoredB_ensureTunnelGitignored (c : Str) :
    kindlingIgnoredB (ensureTunnelGitignored c) = true := by
  by_cases h : kindlingIgnoredB c = true
  · rwa [ensureTunnelGitignored_of_ignored c h]
  · rw [ensureTunnelGitignored_padding c h]
    by_cases hpad : (!c.isEmpty && !decide (c.getLast? = some '\n')) = true
    · rw [if_pos hpad]
      rw [List.append_assoc, List.append_assoc, List.singleton_append,
        kindlingIgnoredB_append]
      have : kindlingIgnoredB (".kindling/".data ++ ['\n']) = true := by decide
      rw [this, Bool.or_true]
    · rw [if_neg hpad]
      rcases c.eq_nil_or_concat with rfl | ⟨l', a, rfl⟩
      · decide
      · simp only [List.concat_eq_append] at h hpad ⊢
        have hne : (l' ++ [a]).isEmpty = false := by cases l' <;> rfl
        have ha : (l' ++ [a]).getLast? = some '\n' := by
          by_contra hlast
          apply hpad
          rw [hne]
          simp only [Bool.not_false, Bool.true_and, Bool.not_eq_true', decide_eq_false_iff_not]
          exact hlast
        have ha' : a = '\n' := by
          rw [List.getLast?_concat] at ha
          exact Option.some.inj ha
        subst ha'
        rw [List.append_assoc, List.append_assoc, List.singleton_append,
          kindlingIgnoredB_append, Bool.or_eq_true]
        right
        decide

theorem countP_splitOnNl_append (x r : Str) :
    (splitOnNl (x ++ '\n' :: r)).countP kindlingLine =
      (splitOnNl x).countP kindlingLine + (splitOnNl r).countP kindlingLine := by
  rw [splitOnNl_append, List.countP_append]

/-- C10: `ensureTunnelGitignored` is idempotent: a `.gitignore` that already
contains a line whose trimmed content is `.kindling/` or `.kindling` is left
unchanged; for every initial content, applying the function twice equals
applying it once; and one application adds at most one line ignoring
`.kindling` to the file. -/
theorem ensureTunnelGitignored_idempotent (content : Str) :
    (kindlingIgnoredB content = true → ensureTunnelGitignored content = content) ∧
    ensureTunnelGitignored (ensureTunnelGitignored content) = ensureTunnelGitignored content ∧
    (splitOnNl (ensureTunnelGitignored content)).countP kindlingLine ≤
      (splitOnNl content).countP kindlingLine + 1 := by
  refine ⟨ensureTunnelGitignored_of_ignored content, ?_, ?_⟩
  · exact ensureTunnelGitignored_of_ignored _ (kindlingIgnoredB_ensureTunnelGitignored content)
  · by_cases h : kindlingIgnoredB content = true
    · rw [ensureTunnelGitignored_of_ignored content h]
      exact Nat.le_succ _
    · have hzero : (splitOnNl content).countP kindlingLine = 0 :=
        List.countP_eq_zero.mpr (List.any_eq_false.mp (Bool.not_eq_true _ ▸ h))
      rw [ensureTunnelGitignored_padding content h, hzero]
      by_cases hpad : (!content.isEmpty && !decide (content.getLast? = some '\n')) = true
      · rw [if_pos hpad, List.append_assoc, List.append_assoc, List.singleton_append,
          countP_splitOnNl_append]
        have h1 : (splitOnNl (".kindling/".data ++ '\n' :: [])).countP kindlingLine = 1 := by
          decide
        have h0 : (splitOnNl content).countP kindlingLine = 0 := hzero
        rw [h0, h1]
      · rw [if_neg hpad]
        rcases content.eq_nil_or_concat with rfl | ⟨l', a, rfl⟩
        · decide
        · simp only [List.concat_eq_append] at h hpad hzero ⊢
          have hne : (l' ++ [a]).isEmpty = false := by cases l' <;> rfl
          have ha : (l' ++ [a]).getLast? = some '\n' := by
            by_contra hlast
            apply hpad
            rw [hne]
            simp only [Bool.not_false, Bool.true_and, Bool.not_eq_true',
              decide_eq_false_iff_not]
            exact hlast
          have ha' : a = '\n' := by
            rw [List.getLast?_concat] at ha
            exact Option.some.inj ha
          subst ha'
          rw [List.append_assoc, List.append_assoc, List.singleton_append,
            countP_splitOnNl_append]
          rw [countP_splitOnNl_append] at hzero
          have h1 : (splitOnNl (['.', 'k', 'i', 'n', 'd', 'l', 'i', 'n', 'g', '/'] ++
              ['\n'])).countP kindlingLine = 1 := by decide
          omega

/-- Witness for C10: a `.gitignore` already ignoring `.kindling/` is left
unchanged. -/
theorem ensureTunnelGitignored_idempotent_witness :
    ensureTunnelGitignored ("node_modules/\n.kindling/\n".data) =
      "node_modules/\n.kindling/\n".data :=
  (ensureTunnelGitignored_idempotent "node_modules/\n.kindling/\n".data).1 (by decide)

theorem splitOnNl_saveTunnelInfoContentFg (publicURL provider : Str) (created : Str)
    (hpNl : '\n' ∉ provider) (huNl : '\n' ∉ publicURL) (hcNl : '\n' ∉ created) :
    splitOnNl (saveTunnelInfoContentFg publicURL provider created) =
      [tunnelFileHeader, "provider: ".data ++ provider, "url: ".data ++ publicURL,
        "created: ".data ++ created, []] := by
  unfold saveTunnelInfoContentFg
  rw [splitOnNl_line _ _ (by decide)]
  rw [splitOnNl_line _ _ (not_mem_append_chars (by decide) hpNl)]
  rw [splitOnNl_line _ _ (not_mem_append_chars (by decide) huNl)]
  rw [splitOnNl_line _ _ (not_mem_append_chars (by decide) hcNl)]
  rfl

/-- Parsing the file written by the foreground `saveTunnelInfo` leaves the PID
at its zero value: no `pid:` line is ever written. -/
theorem readTunnelInfo_saveFg_aux
    (publicURL provider : Str) (created : Str)
    (hpNl : '\n' ∉ provider) (hpL : ltrim provider = provider) (hpR : rtrim provider = provider)
    (huNl : '\n' ∉ publicURL) (huL : ltrim publicURL = publicURL)
    (huR : rtrim publicURL = publicURL) (hcNl : '\n' ∉ created) :
    readTunnelInfo (saveTunnelInfoContentFg publicURL provider created) =
      ⟨provider, publicURL, 0⟩ := by
  rw [readTunnelInfo,
    splitOnNl_saveTunnelInfoContentFg publicURL provider created hpNl huNl hcNl]
  simp only [List.foldl_cons, List.foldl_nil]
  obtain ⟨hpre1, hval1, hshape1⟩ :=
    label_line_parses "provider:".data provider 'p' "rovider:".data rfl (by decide) hpL hpR
  obtain ⟨hpre2, hval2, hshape2⟩ :=
    label_line_parses "url:".data publicURL 'u' "rl:".data rfl (by decide) huL huR
  have hnotp2 :
      "provider:".data.isPrefixOf (trimStr (("url:".data ++ [' ']) ++ publicURL)) = false := by
    rcases hshape2 with h | h
    · rw [h]; decide
    · rw [h, show ("url:".data ++ [' ']) ++ publicURL = 'u' :: ("rl: ".data ++ publicURL)
        from rfl]
      exact isPrefixOf_false_of_head_ne _ _ (by decide)
  have h1 : parseTunnelLine ⟨[], [], 0⟩ tunnelFileHeader = ⟨[], [], 0⟩ :=
    parseTunnelLine_skip_head _ '#' " Generated by kindling expose — do not edit".data
      (by decide) (by decide) (by decide)
  have h2 : parseTunnelLine ⟨[], [], 0⟩ ("provider: ".data ++ provider) =
      ⟨provider, [], 0⟩ :=
    parseTunnelLine_provider_branch _ _ _ hpre1 hval1
  have h3 : parseTunnelLine ⟨provider, [], 0⟩ ("url: ".data ++ publicURL) =
      ⟨provider, publicURL, 0⟩ :=
    parseTunnelLine_url_branch _ _ _ hnotp2 hpre2 hval2
  have h5 : parseTunnelLine ⟨provider, publicURL, 0⟩ ("created: ".data ++ created) =
      ⟨provider, publicURL, 0⟩ :=
    parseTunnelLine_skip_head _ 'c' ("reated: ".data ++ created)
      (by decide) (by decide) (by decide)
  have h6 : parseTunnelLine ⟨provider, publicURL, 0⟩ [] = ⟨provider, publicURL, 0⟩ :=
    parseTunnelLine_skip _ [] (by decide) (by decide) (by decide)
  rw [h1, h2, h3, h5, h6]

/-- C8: the source's two tunnel-supervisor implementations are not
behaviorally equivalent.  The background-detached variant records the child
PID in `.kindling/tunnel.yaml` and its stop path also deletes the in-cluster
`kindling-tunnel` ConfigMap; the foreground variant writes no `pid:` line
(reading its file back yields PID 0) and its interrupt path removes only the
local `tunnel.yaml`. -/
theorem exposeVariants_not_equivalent :
    readTunnelInfo (saveTunnelInfoContent "https://x.trycloudflare.com".data
        "cloudflared".data 4242 "2024-01-01T00:00:00Z".data) =
      ⟨"cloudflared".data, "https://x.trycloudflare.com".data, 4242⟩ ∧
    readTunnelInfo (saveTunnelInfoContentFg "https://x.trycloudflare.com".data
        "cloudflared".data "2024-01-01T00:00:00Z".data) =
      ⟨"cloudflared".data, "https://x.trycloudflare.com".data, 0⟩ ∧
    saveTunnelInfoContent "https://x.trycloudflare.com".data "cloudflared".data 4242
        "2024-01-01T00:00:00Z".data ≠
      saveTunnelInfoContentFg "https://x.trycloudflare.com".data "cloudflared".data
        "2024-01-01T00:00:00Z".data ∧
    cleanupTunnelActions ≠ waitForInterruptActions ∧
    TunnelStopAction.deleteTunnelConfigMap ∈ cleanupTunnelActions ∧
    TunnelStopAction.deleteTunnelConfigMap ∉ waitForInterruptActions := by
  have hbg := readTunnelInfo_save_aux "https://x.trycloudflare.com".data "cloudflared".data
    4242 "2024-01-01T00:00:00Z".data (by decide) (by decide) (by decide) (by decide)
    (by decide) (by decide) (by decide)
  have hfg := readTunnelInfo_saveFg_aux "https://x.trycloudflare.com".data "cloudflared".data
    "2024-01-01T00:00:00Z".data (by decide) (by decide) (by decide) (by decide)
    (by decide) (by decide) (by decide)
  refine ⟨hbg, hfg, ?_, by decide, by decide, by decide⟩
  intro hcontents
  rw [hcontents, hfg] at hbg
  exact absurd hbg (by decide)

theorem lookupKey_setKey_self {V : Type} (st : List (String × V)) (k : String) (v w : V)
    (h : lookupKey st k = some w) : lookupKey (setKey st k v) k = some v := by
  induction st with
  | nil => simp [lookupKey] at h
  | cons p t ih =>
      obtain ⟨a, b⟩ := p
      by_cases hak : a = k
      · simp [setKey, hak, lookupKey]
      · rw [lookupKey, if_neg hak] at h
        simp only [setKey, if_neg hak]
        rw [lookupKey, if_neg hak]
        exact ih h

theorem lookupKey_setKey_ne {V : Type} (st : List (String × V)) (k k' : String) (v : V)
    (h : k' ≠ k) : lookupKey (setKey st k v) k' = lookupKey st k' := by
  induction st with
  | nil => rfl
  | cons p t ih =>
      obtain ⟨a, b⟩ := p
      by_cases hak : a = k
      · simp only [setKey, if_pos hak, lookupKey]
        rw [if_neg (Ne.symm h), ih, if_neg (fun ha : a = k' => h (ha ▸ hak))]
      · simp only [setKey, if_neg hak, lookupKey]
        by_cases hak' : a = k'
        · rw [if_pos hak', if_pos hak']
        · rw [if_neg hak', if_neg hak', ih]

theorem lookupKey_upsert_self {V : Type} [DecidableEq V] (st : List (String × V))
    (k : String) (v : V) : lookupKey (upsert st k v).1 k = some v := by
  unfold upsert
  cases h : lookupKey st k with
  | none => simp [lookupKey]
  | some w =>
      by_cases hwv : w = v
      · subst hwv
        simp [h]
      · simp only [if_neg hwv]
        exact lookupKey_setKey_self st k v w h

theorem lookupKey_upsert_ne {V : Type} [DecidableEq V] (st : List (String × V))
    (k k' : String) (v : V) (h : k' ≠ k) :
    lookupKey (upsert st k v).1 k' = lookupKey st k' := by
  unfold upsert
  cases hl : lookupKey st k with
  | none => simp [lookupKey, if_neg (Ne.symm h)]
  | some w =>
      by_cases hwv : w = v
      · simp [hwv]
      · simp only [if_neg hwv]
        exact lookupKey_setKey_ne st k k' v h

theorem upsert_of_lookup_eq {V : Type} [DecidableEq V] (st : List (String × V))
    (k : String) (v : V) (h : lookupKey st k = some v) : upsert st k v = (st, false) := by
  simp [upsert, h]

theorem reconcilePass_preserves {V : Type} [DecidableEq V]
    (desired : List (String × V)) (st : List (String × V)) (k : String)
    (h : k ∉ desired.map Prod.fst) :
    lookupKey (reconcilePass desired st).1 k = lookupKey st k := by
  induction desired generalizing st with
  | nil => rfl
  | cons kv rest ih =>
      obtain ⟨k', v⟩ := kv
      simp only [List.map_cons, List.mem_cons, not_or] at h
      simp only [reconcilePass]
      rw [ih _ h.2, lookupKey_upsert_ne st k' k v h.1]

theorem reconcilePass_establishes {V : Type} [DecidableEq V]
    (desired : List (String × V)) (st : List (String × V))
    (hnodup : (desired.map Prod.fst).Nodup) :
    ∀ kv ∈ desired, lookupKey (reconcilePass desired st).1 kv.1 = some kv.2 := by
  induction desired generalizing st with
  | nil => intro kv h; simp at h
  | cons kv0 rest ih =>
      obtain ⟨k, v⟩ := kv0
      rw [List.map_cons, List.nodup_cons] at hnodup
      intro kv hm
      rcases List.mem_cons.mp hm with rfl | hm'
      · simp only [reconcilePass]
        show lookupKey (reconcilePass rest (upsert st k v).1).1 k = some v
        rw [reconcilePass_preserves rest _ k hnodup.1]
        exact lookupKey_upsert_self st k v
      · simp only [reconcilePass]
        exact ih _ hnodup.2 kv hm'

theorem reconcilePass_noop {V : Type} [DecidableEq V]
    (desired : List (String × V)) (st : List (String × V))
    (h : ∀ kv ∈ desired, lookupKey st kv.1 = some kv.2) :
    reconcilePass desired st = (st, 0) := by
  induction desired with
  | nil => rfl
  | cons kv0 rest ih =>
      obtain ⟨k, v⟩ := kv0
      have h0 : upsert st k v = (st, false) :=
        upsert_of_lookup_eq st k v (h (k, v) (List.mem_cons_self _ _))
      simp only [reconcilePass, h0]
      rw [ih fun kv hm => h kv (List.mem_cons_of_mem _ hm)]
      simp

/-- C1: reconciling the same descriptor twice with no spec change is a no-op:
because every ensure-step is an upsert keyed by a deterministic name (the
desired keys are distinct), the second pass performs zero writes and leaves
the cluster state exactly as the first pass left it. -/
theorem reconcile_idempotent {V : Type} [DecidableEq V]
    (desired : List (String × V)) (st : List (String × V))
    (hnodup : (desired.map Prod.fst).Nodup) :
    reconcilePass desired (reconcilePass desired st).1 = ((reconcilePass desired st).1, 0) :=
  reconcilePass_noop desired _ (reconcilePass_establishes desired st hnodup)

/-- Witness for C1 at a concrete desired-state set and empty cluster. -/
theorem reconcile_idempotent_witness :
    reconcilePass [("deployment/jeff-dev", 1), ("service/jeff-dev", 2)]
        (reconcilePass (V := Nat) [("deployment/jeff-dev", 1), ("service/jeff-dev", 2)] []).1 =
      ((reconcilePass (V := Nat) [("deployment/jeff-dev", 1), ("service/jeff-dev", 2)] []).1, 0) :=
  reconcile_idempotent [("deployment/jeff-dev", 1), ("service/jeff-dev", 2)] [] (by decide)

theorem parseDependencyType_typeName (t : DependencyType) :
    parseDependencyType (typeName t) = some t := by
  cases t <;> decide

/-- C2: the dependency provisioning table is a pure lookup returning exactly
the documented defaults — postgres: 5432/DATABASE_URL, redis: 6379/REDIS_URL,
mysql: 3306/DATABASE_URL, mongodb: 27017/MONGO_URL, rabbitmq: 5672/AMQP_URL,
minio: 9000/S3_ENDPOINT plus S3_ACCESS_KEY and S3_SECRET_KEY — and the
image/port/env-var fields of any declaration override the table's defaults. -/
theorem dependencyTable_defaults :
    dependencyDefaults .postgres = ⟨"postgres:16", 5432, "DATABASE_URL", []⟩ ∧
    dependencyDefaults .redis = ⟨"redis:latest", 6379, "REDIS_URL", []⟩ ∧
    dependencyDefaults .mysql = ⟨"mysql:latest", 3306, "DATABASE_URL", []⟩ ∧
    dependencyDefaults .mongodb = ⟨"mongo:latest", 27017, "MONGO_URL", []⟩ ∧
    dependencyDefaults .rabbitmq = ⟨"rabbitmq:3-management", 5672, "AMQP_URL", []⟩ ∧
    dependencyDefaults .minio =
      ⟨"minio/minio:latest", 9000, "S3_ENDPOINT", ["S3_ACCESS_KEY", "S3_SECRET_KEY"]⟩ ∧
    ∀ (t : DependencyType) (img : Option String) (p : Option Nat) (ev : Option String),
      resolveDependency ⟨typeName t, img, p, ev⟩ =
        some ⟨img.getD (dependencyDefaults t).image, p.getD (dependencyDefaults t).port,
          ev.getD (dependencyDefaults t).envVarName⟩ := by
  refine ⟨rfl, rfl, rfl, rfl, rfl, rfl, ?_⟩
  intro t img p ev
  cases t <;> simp [resolveDependency, parseDependencyType, typeName, dependencyDefaults]

theorem lookupKey_ensureDepSecret_preserved (g : String) (secrets : List (String × String))
    (m n : String) (v : String) (h : lookupKey secrets n = some v) :
    lookupKey (ensureDepSecret g secrets m) n = some v := by
  unfold ensureDepSecret
  cases hm : lookupKey secrets m with
  | some w => exact h
  | none =>
      have hnm : m ≠ n := fun he => by rw [he, h] at hm; cases hm
      rw [lookupKey, if_neg hnm]
      exact h

theorem lookupKey_ensureDepSecret_isSome (g : String) (secrets : List (String × String))
    (n : String) : (lookupKey (ensureDepSecret g secrets n) n).isSome = true := by
  unfold ensureDepSecret
  cases hm : lookupKey secrets n with
  | some w => simp [hm]
  | none => simp [lookupKey]

theorem ensureDepSecret_of_isSome (g : String) (secrets : List (String × String))
    (n : String) (h : (lookupKey secrets n).isSome = true) :
    ensureDepSecret g secrets n = secrets := by
  unfold ensureDepSecret
  cases hm : lookupKey secrets n with
  | some w => rfl
  | none => rw [hm] at h; cases h

theorem reconcileDepSecretsLoop_preserves (gen : String → String) (owner : String)
    (deps : List DependencyDecl) (secrets : List (String × String)) (n : String)
    (h : (lookupKey secrets n).isSome = true) :
    (lookupKey (reconcileDepSecretsLoop gen owner deps secrets) n).isSome = true := by
  induction deps generalizing secrets with
  | nil => exact h
  | cons d rest ih =>
      obtain ⟨v, hv⟩ := Option.isSome_iff_exists.mp h
      exact ih _ (by rw [lookupKey_ensureDepSecret_preserved _ _ _ _ _ hv]; rfl)

theorem reconcileDepSecretsLoop_establishes (gen : String → String) (owner : String)
    (deps : List DependencyDecl) (secrets : List (String × String)) :
    ∀ d ∈ deps,
      (lookupKey (reconcileDepSecretsLoop gen owner deps secrets)
        (depSecretName owner d)).isSome = true := by
  induction deps generalizing secrets with
  | nil => intro d h; cases h
  | cons d0 rest ih =>
      intro d hm
      rcases List.mem_cons.mp hm with rfl | hm'
      · exact reconcileDepSecretsLoop_preserves gen owner rest _ _
          (lookupKey_ensureDepSecret_isSome _ _ _)
      · exact ih _ d hm'

theorem reconcileDepSecretsLoop_noop (gen : String → String) (owner : String)
    (deps : List DependencyDecl) (secrets : List (String × String))
    (h : ∀ d ∈ deps, (lookupKey secrets (depSecretName owner d)).isSome = true) :
    reconcileDepSecretsLoop gen owner deps secrets = secrets := by
  induction deps with
  | nil => rfl
  | cons d0 rest ih =>
      rw [reconcileDepSecretsLoop,
        ensureDepSecret_of_isSome _ _ _ (h d0 (List.mem_cons_self _ _))]
      exact ih fun d hm => h d (List.mem_cons_of_mem _ hm)

/-- C3: dependency credentials are generated once and never regenerated: once
the first reconcile has stored every dependency Secret, any later reconcile —
with arbitrarily different fresh credential material and any change to
unrelated descriptor fields (image, replicas) — reads the stored Secrets back
and leaves the secret store exactly as it was. -/
theorem credentialStability (gen1 gen2 : String → String) (d1 d2 : EnvDescriptor)
    (secrets : List (String × String))
    (hname : d2.name = d1.name) (hdeps : d2.dependencies = d1.dependencies) :
    reconcileDepSecrets gen2 d2 (reconcileDepSecrets gen1 d1 secrets) =
      reconcileDepSecrets gen1 d1 secrets := by
  unfold reconcileDepSecrets
  rw [hname, hdeps]
  exact reconcileDepSecretsLoop_noop gen2 d1.name d1.dependencies _
    (reconcileDepSecretsLoop_establishes gen1 d1.name d1.dependencies secrets)

/-- Witness for C3: replica and image changes between two reconciles with
different generated credentials leave the postgres Secret store unchanged. -/
theorem credentialStability_witness :
    reconcileDepSecrets (fun _ => "fresh-random-2")
        ⟨"jeff-dev", "registry:5000/myapp:v2", 3, [⟨"postgres", none, none, none⟩]⟩
        (reconcileDepSecrets (fun _ => "fresh-random-1")
          ⟨"jeff-dev", "registry:5000/myapp:v1", 1, [⟨"postgres", none, none, none⟩]⟩ []) =
      reconcileDepSecrets (fun _ => "fresh-random-1")
        ⟨"jeff-dev", "registry:5000/myapp:v1", 1, [⟨"postgres", none, none, none⟩]⟩ [] :=
  credentialStability (fun _ => "fresh-random-1") (fun _ => "fresh-random-2")
    ⟨"jeff-dev", "registry:5000/myapp:v1", 1, [⟨"postgres", none, none, none⟩]⟩
    ⟨"jeff-dev", "registry:5000/myapp:v2", 3, [⟨"postgres", none, none, none⟩]⟩
    [] rfl rfl

theorem lookupEnv_none_of_hasEnv_false (l : List EnvVar) (n : String)
    (h : hasEnv l n = false) : lookupEnv l n = none := by
  induction l with
  | nil => rfl
  | cons e t ih =>
      simp only [hasEnv, List.any_cons, Bool.or_eq_false_iff, decide_eq_false_iff_not] at h
      rw [lookupEnv, if_neg h.1]
      exact ih (by simp [hasEnv, h.2])

theorem lookupEnv_append_left (a b : List EnvVar) (n : String) (v : String)
    (h : lookupEnv a n = some v) : lookupEnv (a ++ b) n = some v := by
  induction a with
  | nil => cases h
  | cons e t ih =>
      rw [lookupEnv] at h
      rw [List.cons_append, lookupEnv]
      by_cases he : e.name = n
      · rwa [if_pos he] at h ⊢
      · rw [if_neg he] at h ⊢
        exact ih h

theorem lookupEnv_append_right (a b : List EnvVar) (n : String)
    (h : lookupEnv a n = none) : lookupEnv (a ++ b) n = lookupEnv b n := by
  induction a with
  | nil => rfl
  | cons e t ih =>
      rw [lookupEnv] at h
      rw [List.cons_append, lookupEnv]
      by_cases he : e.name = n
      · rw [if_pos he] at h; cases h
      · rw [if_neg he] at h ⊢
        exact ih h

theorem lookupEnv_filter_not_shadowed (explicitVars depVars : List EnvVar) (n : String)
    (h : hasEnv explicitVars n = false) :
    lookupEnv (depVars.filter fun d => !(hasEnv explicitVars d.name)) n =
      lookupEnv depVars n := by
  induction depVars with
  | nil => rfl
  | cons d t ih =>
      simp only [List.filter_cons]
      by_cases hd : d.name = n
      · have hkeep : (!(hasEnv explicitVars d.name)) = true := by rw [hd, h]; rfl
        rw [if_pos hkeep, lookupEnv, if_pos hd, lookupEnv, if_pos hd]
      · by_cases hkeep : (!(hasEnv explicitVars d.name)) = true
        · rw [if_pos hkeep, lookupEnv, if_neg hd, lookupEnv, if_neg hd]
          exact ih
        · rw [if_neg hkeep, lookupEnv, if_neg hd]
          exact ih

theorem lookupEnv_filter_shadowed (explicitVars depVars : List EnvVar) (n : String)
    (h : hasEnv explicitVars n = true) :
    lookupEnv (depVars.filter fun d => !(hasEnv explicitVars d.name)) n = none := by
  induction depVars with
  | nil => rfl
  | cons d t ih =>
      simp only [List.filter_cons]
      by_cases hkeep : (!(hasEnv explicitVars d.name)) = true
      · rw [if_pos hkeep, lookupEnv]
        have hd : d.name ≠ n := by
          intro he
          rw [he, h] at hkeep
          cases hkeep
        rw [if_neg hd]
        exact ih
      · rw [if_neg hkeep]
        exact ih

/-- C4: the application container's environment is the aggregation of all
dependency-injected variables plus the descriptor's own `env` list, and on
every name collision the explicit `env` entry's value wins: a lookup returns
the explicit binding whenever the name is explicitly bound, and the
dependency-injected binding otherwise. -/
theorem aggregateEnv_lookup (depVars explicitVars : List EnvVar) (n : String) :
    lookupEnv (aggregateEnv depVars explicitVars) n =
      if hasEnv explicitVars n = true then lookupEnv explicitVars n
      else lookupEnv depVars n := by
  unfold aggregateEnv
  by_cases h : hasEnv explicitVars n = true
  · rw [if_pos h,
      lookupEnv_append_right _ _ _ (lookupEnv_filter_shadowed explicitVars depVars n h)]
  · have h' : hasEnv explicitVars n = false := by
      cases hb : hasEnv explicitVars n
      · rfl
      · exact absurd hb h
    rw [if_neg h]
    cases hd : lookupEnv depVars n with
    | some v =>
        exact lookupEnv_append_left _ _ _ v
          ((lookupEnv_filter_not_shadowed explicitVars depVars n h').trans hd)
    | none =>
        rw [lookupEnv_append_right _ _ _
          ((lookupEnv_filter_not_shadowed explicitVars depVars n h').trans hd)]
        exact lookupEnv_none_of_hasEnv_false explicitVars n h'

theorem mem_provisionDependencies (owner : String) (decls : List DependencyDecl) (r : ProvRes) :
    r ∈ (provisionDependencies owner decls).1 ↔
      ∃ d ∈ decls, r ∈ (provisionEntry owner d).1 := by
  induction decls with
  | nil => simp [provisionDependencies]
  | cons d0 rest ih =>
      simp only [provisionDependencies, List.mem_append, ih, List.mem_cons]
      constructor
      · rintro (h | ⟨d, hd, hr⟩)
        · exact ⟨d0, Or.inl rfl, h⟩
        · exact ⟨d, Or.inr hd, hr⟩
      · rintro ⟨d, rfl | hd, hr⟩
        · exact Or.inl hr
        · exact Or.inr ⟨d, hd, hr⟩

theorem provisionErrors_eq_nil_iff (owner : String) (decls : List DependencyDecl) :
    (provisionDependencies owner decls).2 = [] ↔
      ∀ d ∈ decls, parseDependencyType d.type ≠ none := by
  induction decls with
  | nil => simp [provisionDependencies]
  | cons d0 rest ih =>
      cases hp : parseDependencyType d0.type with
      | none =>
          simp [provisionDependencies, provisionEntry, hp]
      | some t =>
          simp [provisionDependencies, provisionEntry, hp, ih]

theorem invalidCondition_iff (owner : String) (decls : List DependencyDecl) :
    invalidCondition owner decls = true ↔
      ∃ d ∈ decls, parseDependencyType d.type = none := by
  have hchain : invalidCondition owner decls = true ↔
      ¬ (provisionDependencies owner decls).2 = [] := by
    rw [invalidCondition]
    cases he : (provisionDependencies owner decls).2 with
    | nil => simp
    | cons x xs => simp
  rw [hchain, provisionErrors_eq_nil_iff]
  push_neg
  rfl

/-- C5: a dependency entry of an unsupported type never creates resources and
surfaces the `Invalid` validation condition on the owning object's status,
while every supported entry in the same descriptor still provisions its
Deployment, Service and Secret into the aggregate result. -/
theorem unknownDependencyType_isolated (owner : String) (decls : List DependencyDecl) :
    (∀ d ∈ decls, parseDependencyType d.type = none →
        (provisionEntry owner d).1 = [] ∧ (provisionEntry owner d).2 ≠ [] ∧
        invalidCondition owner decls = true) ∧
    (∀ d ∈ decls, ∀ t, parseDependencyType d.type = some t →
        (provisionEntry owner d).2 = [] ∧
        ∀ r ∈ (provisionEntry owner d).1, r ∈ (provisionDependencies owner decls).1) ∧
    (∀ r, r ∈ (provisionDependencies owner decls).1 ↔
        ∃ d ∈ decls, r ∈ (provisionEntry owner d).1) := by
  refine ⟨?_, ?_, mem_provisionDependencies owner decls⟩
  · intro d hd hp
    refine ⟨by simp [provisionEntry, hp], by simp [provisionEntry, hp], ?_⟩
    exact (invalidCondition_iff owner decls).mpr ⟨d, hd, hp⟩
  · intro d hd t hp
    refine ⟨by simp [provisionEntry, hp], ?_⟩
    intro r hr
    exact (mem_provisionDependencies owner decls r).mpr ⟨d, hd, hr⟩

/-- Witness for C5: in a descriptor declaring postgres and an unsupported
oracle entry, the oracle entry creates nothing and raises the condition while
postgres still provisions its Deployment. -/
theorem unknownDependencyType_isolated_witness :
    (provisionEntry "jeff-dev" ⟨"oracle", none, none, none⟩).1 = [] ∧
    invalidCondition "jeff-dev"
      [⟨"postgres", none, none, none⟩, ⟨"oracle", none, none, none⟩] = true ∧
    (⟨"jeff-dev-postgres", "Deployment"⟩ : ProvRes) ∈
      (provisionDependencies "jeff-dev"
        [⟨"postgres", none, none, none⟩, ⟨"oracle", none, none, none⟩]).1 := by
  have T := unknownDependencyType_isolated "jeff-dev"
    [⟨"postgres", none, none, none⟩, ⟨"oracle", none, none, none⟩]
  have horacle := T.1 ⟨"oracle", none, none, none⟩ (by simp) (by decide)
  have hpg := T.2.1 ⟨"postgres", none, none, none⟩ (by simp) DependencyType.postgres (by decide)
  exact ⟨horacle.1, horacle.2.2, hpg.2 _ (by decide)⟩

theorem getFile_removeFile_self (fs : List (String × Str)) (n : String) :
    getFile (removeFile fs n) n = none := by
  induction fs with
  | nil => rfl
  | cons p t ih =>
      simp only [removeFile, List.filter_cons] at ih ⊢
      by_cases hp : p.1 = n
      · rw [if_neg (by simp [hp])]
        exact ih
      · rw [if_pos (by simp [hp])]
        show lookupKey (p :: List.filter _ t) n = none
        rw [lookupKey.eq_def]
        obtain ⟨a, b⟩ := p
        simp only at hp ⊢
        rw [if_neg hp]
        exact ih

theorem getFile_removeFile_ne (fs : List (String × Str)) (m n : String) (h : m ≠ n) :
    getFile (removeFile fs m) n = getFile fs n := by
  induction fs with
  | nil => rfl
  | cons p t ih =>
      obtain ⟨a, b⟩ := p
      simp only [removeFile, List.filter_cons] at ih ⊢
      by_cases ha : a = m
      · rw [if_neg (by simp [ha])]
        show getFile (removeFile t m) n = lookupKey ((a, b) :: t) n
        rw [lookupKey.eq_def]
        simp only
        rw [if_neg (fun han : a = n => h (ha ▸ han ▸ rfl))]
        exact ih
      · rw [if_pos (by simp [ha])]
        show lookupKey ((a, b) :: List.filter _ t) n = lookupKey ((a, b) :: t) n
        rw [lookupKey.eq_def, lookupKey.eq_def]
        simp only
        by_cases han : a = n
        · rw [if_pos han, if_pos han]
        · rw [if_neg han, if_neg han]
          exact ih

theorem getFile_setFile_self (fs : List (String × Str)) (n : String) (v : Str) :
    getFile (setFile fs n v) n = some v := by
  show lookupKey ((n, v) :: removeFile fs n) n = some v
  rw [lookupKey.eq_def]
  simp

theorem getFile_setFile_ne (fs : List (String × Str)) (m n : String) (v : Str) (h : m ≠ n) :
    getFile (setFile fs m v) n = getFile fs n := by
  show lookupKey ((m, v) :: removeFile fs m) n = getFile fs n
  rw [lookupKey.eq_def]
  simp only
  rw [if_neg h]
  exact getFile_removeFile_ne fs m n h

theorem countFile_removeFile_self (fs : List (String × Str)) (n : String) :
    countFile (removeFile fs n) n = 0 := by
  rw [countFile, List.countP_eq_zero]
  intro p hp
  have := List.of_mem_filter hp
  simp only [Bool.not_eq_true', decide_eq_false_iff_not] at this
  simpa using this

theorem countFile_setFile_self (fs : List (String × Str)) (n : String) (v : Str) :
    countFile (setFile fs n v) n = 1 := by
  show List.countP _ ((n, v) :: removeFile fs n) = 1
  rw [List.countP_cons]
  have h0 : countFile (removeFile fs n) n = 0 := countFile_removeFile_self fs n
  rw [countFile] at h0
  simp [h0]

theorem suffix_names_ne (name : String) : name ++ ".done" ≠ name ++ ".request" := by
  intro h
  have hlen := congrArg String.length h
  rw [String.length_append, String.length_append] at hlen
  have h2 : ".done".length = ".request".length := by omega
  exact absurd h2 (by decide)

theorem buildAgentPoll_no_trigger (exitCode : Nat) (name : String) (s : BuildAgentState)
    (h : getFile s.files (name ++ ".request") = none) :
    buildAgentPoll exitCode name s = s := by
  unfold buildAgentPoll
  rw [if_neg (by rw [h]; simp)]

/-- C6: with a valid trigger set present, one helper polling cycle launches
exactly one builder run, writes exactly one completion file `<name>.done`
containing the builder's numeric exit status, and deletes the trigger before
working; a second cycle over the same volume (the "trigger appears twice"
scenario) finds no trigger and changes nothing, so processing is at-most-once
per trigger-file instance. -/
theorem signalProtocol_roundTrip (fs : List (String × Str)) (runs : Nat) (name : String)
    (exitCode : Nat) (htrig : (getFile fs (name ++ ".request")).isSome = true) :
    countFile (buildAgentPoll exitCode name ⟨fs, runs⟩).files (name ++ ".done") = 1 ∧
    getFile (buildAgentPoll exitCode name ⟨fs, runs⟩).files (name ++ ".done") =
      some (natToChars exitCode) ∧
    (buildAgentPoll exitCode name ⟨fs, runs⟩).runs = runs + 1 ∧
    getFile (buildAgentPoll exitCode name ⟨fs, runs⟩).files (name ++ ".request") = none ∧
    buildAgentPoll exitCode name (buildAgentPoll exitCode name ⟨fs, runs⟩) =
      buildAgentPoll exitCode name ⟨fs, runs⟩ := by
  have hs1 : buildAgentPoll exitCode name ⟨fs, runs⟩ =
      ⟨setFile (removeFile fs (name ++ ".request")) (name ++ ".done") (natToChars exitCode),
        runs + 1⟩ := by
    unfold buildAgentPoll
    rw [if_pos htrig]
  have hreq : getFile (buildAgentPoll exitCode name ⟨fs, runs⟩).files (name ++ ".request") =
      none := by
    rw [hs1]
    show getFile (setFile _ _ _) _ = none
    rw [getFile_setFile_ne _ _ _ _ (suffix_names_ne name)]
    exact getFile_removeFile_self fs (name ++ ".request")
  refine ⟨?_, ?_, ?_, hreq, ?_⟩
  · rw [hs1]
    exact countFile_setFile_self _ _ _
  · rw [hs1]
    exact getFile_setFile_self _ _ _
  · rw [hs1]
  · rw [hs1]
    refine buildAgentPoll_no_trigger exitCode name _ ?_
    show getFile (setFile _ _ _) _ = none
    rw [getFile_setFile_ne _ _ _ _ (suffix_names_ne name)]
    exact getFile_removeFile_self fs (name ++ ".request")

/-- Witness for C6: a concrete trigger set for job `myapp` is processed once;
the second cycle is a no-op. -/
theorem signalProtocol_roundTrip_witness :
    (buildAgentPoll 0 "myapp"
      ⟨[("myapp.tar.gz", []), ("myapp.dest", "registry:5000/myapp:v1".data),
        ("myapp.request", [])], 0⟩).runs = 1 ∧
    buildAgentPoll 0 "myapp" (buildAgentPoll 0 "myapp"
      ⟨[("myapp.tar.gz", []), ("myapp.dest", "registry:5000/myapp:v1".data),
        ("myapp.request", [])], 0⟩) =
      buildAgentPoll 0 "myapp"
        ⟨[("myapp.tar.gz", []), ("myapp.dest", "registry:5000/myapp:v1".data),
          ("myapp.request", [])], 0⟩ :=
  ⟨(signalProtocol_roundTrip _ 0 "myapp" 0 (by decide)).2.2.1,
    (signalProtocol_roundTrip _ 0 "myapp" 0 (by decide)).2.2.2.2⟩

/-- C7: the runner pool credential lifecycle: registration performs exactly
one exchange (the first reachable attempt) and never more than one;
de-registration within the finalizer performs at most one exchange, exactly
one when the API becomes reachable within the bounded timeout, and deletion
always proceeds — even when the API never becomes reachable. -/
theorem runnerLifecycle (regAvail deregAvail : List Bool) (timeout : Nat) :
    registerLoop regAvail ≤ 1 ∧
    (true ∈ regAvail → registerLoop regAvail = 1) ∧
    (deregLoop timeout deregAvail).2 = true ∧
    (deregLoop timeout deregAvail).1 ≤ 1 ∧
    (true ∈ deregAvail.take timeout → (deregLoop timeout deregAvail).1 = 1) := by
  refine ⟨?_, ?_, ?_, ?_, ?_⟩
  · induction regAvail with
    | nil => exact Nat.zero_le 1
    | cons a rest ih =>
        by_cases ha : a = true
        · simp [registerLoop, ha]
        · simp only [registerLoop, if_neg ha]
          exact ih
  · intro hm
    induction regAvail with
    | nil => cases hm
    | cons a rest ih =>
        rcases List.mem_cons.mp hm with rfl | hm'
        · rfl
        · by_cases ha : a = true
          · simp [registerLoop, ha]
          · simp only [registerLoop, if_neg ha]
            exact ih hm'
  · induction timeout generalizing deregAvail with
    | zero => rfl
    | succ t ih =>
        cases deregAvail with
        | nil => rfl
        | cons a rest =>
            by_cases ha : a = true
            · simp [deregLoop, ha]
            · simp only [deregLoop, if_neg ha]
              exact ih rest
  · induction timeout generalizing deregAvail with
    | zero => exact Nat.zero_le 1
    | succ t ih =>
        cases deregAvail with
        | nil => exact Nat.zero_le 1
        | cons a rest =>
            by_cases ha : a = true
            · simp [deregLoop, ha]
            · simp only [deregLoop, if_neg ha]
              exact ih rest
  · induction timeout generalizing deregAvail with
    | zero => intro hm; cases hm
    | succ t ih =>
        intro hm
        cases deregAvail with
        | nil => cases hm
        | cons a rest =>
            rw [List.take_succ_cons] at hm
            rcases List.mem_cons.mp hm with rfl | hm'
            · rfl
            · by_cases ha : a = true
              · simp [deregLoop, ha]
              · simp only [deregLoop, if_neg ha]
                exact ih rest hm'

/-- Witness for C7: the first de-registration attempt times out, the retry
succeeds; exactly one registration and one de-registration exchange happen and
deletion proceeds. -/
theorem runnerLifecycle_witness :
    registerLoop [false, true] = 1 ∧ (deregLoop 3 [false, true]).1 = 1 ∧
    (deregLoop 3 [false, true]).2 = true :=
  ⟨(runnerLifecycle [false, true] [false, true] 3).2.1 (by decide),
    (runnerLifecycle [false, true] [false, true] 3).2.2.2.2 (by decide),
    (runnerLifecycle [false, true] [false, true] 3).2.2.1⟩
